import Mathlib

/-!
Shallow embedding of `src/drivers/mfs_ipfs/util/util.go` (package `util`).

The Go file manages a process-wide, reference-counted IPFS node handle
(`NewMfs` / `MfsAPI.Close` over the globals `buildCount`, `nodeApi`,
`repopath`, `closeFunc`, `plugins`) and, per client, a lazily built MFS
mutable root (`newRoot`) with the tree operations `List`, `Mkdir`, `Mv`,
`Put`, `Unlink` and the flush step `waitpin`.

External collaborators (go-mfs trees, the kubo core API, the pinning-service
client, the repository bootstrap) are modelled as explicit data: trees are a
concrete inductive `Fs`, and each external call site is a field of an
environment record, so that one run of a Go function is a pure function of
the starting state and the environment's outcomes.  Go's `error` values are
`Option Err` / `Except Err` with `Err := String`; a nil-pointer dereference
is the `GoOutcome.crashed` outcome.
-/

namespace AlistMfs

/-- Error values: the Go code only ever inspects errors for nil-ness and
returns them, so a string payload suffices. -/
abbrev Err := String

/-- Model of the external go-mfs collaborator's in-memory tree: a node is a
file leaf or a directory with a list of named children.  `id` stands for the
node's content identifier (the `Hash` of a listing entry); `size` for a
file's recorded size.  Modelled from the spec's collaborator contract
(directory-like tree with listing and mutation). -/
inductive Fs where
  | file (id : String) (size : Int)
  | dir (id : String) (entries : List (String × Fs))

/-- Listing entry produced by `MfsAPI.List` (struct `NodeObj` in the source). -/
structure NodeObj where
  Id : String
  Name : String
  Size : Int
  Isdir : Bool
deriving Repr, DecidableEq

/-- Go's `reflect.TypeOf(snode).String()` for the two mfs node kinds; the
source uses it as the text of a type-mismatch error. -/
def Fs.typeName : Fs → String
  | .file _ _ => "*mfs.File"
  | .dir _ _ => "*mfs.Directory"

/-- Whether a node is a directory (the `*mfs.Directory` type assertion). -/
def Fs.isDir : Fs → Bool
  | .file _ _ => false
  | .dir _ _ => true

/-- Size reported in a directory listing: the file's size for files; 0 for
subdirectories (abstraction of go-mfs's serialized-node size, which no
claim inspects for directories). -/
def Fs.listSize : Fs → Int
  | .file _ sz => sz
  | .dir _ _ => 0

/-- Content identifier of a node. -/
def Fs.nodeId : Fs → String
  | .file i _ => i
  | .dir i _ => i

/-- Path splitting as go-mfs does for paths like "/a/b": split on the
separator and drop empty segments. -/
def splitPath (pth : String) : List String :=
  (pth.splitOn "/").filter (fun s => s ≠ "")

/-- Find a named child in a directory's entry list (first match, as
go-mfs's child lookup does). -/
def findEntry : List (String × Fs) → String → Option Fs
  | [], _ => none
  | (n, c) :: rest, s => if n = s then some c else findEntry rest s

/-- Replace the named child's subtree in an entry list, keeping order. -/
def replaceEntry (es : List (String × Fs)) (name : String) (c : Fs) :
    List (String × Fs) :=
  es.map (fun p => if p.1 = name then (p.1, c) else p)

/-- Model of `mfs.Lookup` walking the path segments: missing segments or a
walk through a file report an error; segment exhaustion returns the node. -/
def lookupSegs : Fs → List String → Except Err Fs
  | n, [] => .ok n
  | .dir _ es, s :: rest =>
    match findEntry es s with
    | some child => lookupSegs child rest
    | none => .error "file does not exist"
  | .file _ _, _ :: _ => .error "file does not exist"

/-- `mfs.Lookup(mroot, pth)`. -/
def fsLookup (t : Fs) (pth : String) : Except Err Fs :=
  lookupSegs t (splitPath pth)

/-- Model of `mfs.Mkdir` with `MkdirOpts{}` (no parent creation): walks to
the parent, which must exist as a directory, and appends a fresh empty
directory; an existing child of that name is an error. -/
def mkdirSegs : Fs → List String → Except Err Fs
  | _, [] => .error "directory already exists"
  | .file _ _, _ :: _ => .error "not a directory"
  | .dir i es, [last] =>
    match findEntry es last with
    | some _ => .error "file already exists"
    | none => .ok (.dir i (es ++ [(last, .dir "" [])]))
  | .dir i es, s :: r :: rest =>
    match findEntry es s with
    | none => .error "file does not exist"
    | some child =>
      match mkdirSegs child (r :: rest) with
      | .error e => .error e
      | .ok child' => .ok (.dir i (replaceEntry es s child'))

/-- `mfs.Mkdir(mroot, pth, mfs.MkdirOpts{})`. -/
def fsMkdir (t : Fs) (pth : String) : Except Err Fs :=
  mkdirSegs t (splitPath pth)

/-- Model of `mfs.PutNode`: attach `n` at the path, creating intermediate
directories as needed and replacing an existing node at the final name
(per the spec's description of `Put`). -/
def putSegs : Fs → List String → Fs → Except Err Fs
  | _, [], _ => .error "cannot put at root"
  | .file _ _, _ :: _, _ => .error "not a directory"
  | .dir i es, [last], n =>
    match findEntry es last with
    | some _ => .ok (.dir i (replaceEntry es last n))
    | none => .ok (.dir i (es ++ [(last, n)]))
  | .dir i es, s :: r :: rest, n =>
    match findEntry es s with
    | some child =>
      match putSegs child (r :: rest) n with
      | .error e => .error e
      | .ok child' => .ok (.dir i (replaceEntry es s child'))
    | none =>
      match putSegs (.dir "" []) (r :: rest) n with
      | .error e => .error e
      | .ok sub => .ok (.dir i (es ++ [(s, sub)]))

/-- `mfs.PutNode(mroot, pth, node)`. -/
def fsPutNode (t : Fs) (pth : String) (n : Fs) : Except Err Fs :=
  putSegs t (splitPath pth) n

/-- Remove the node at a path (used by the model of `mfs.Mv` to drop the
source after re-attachment): walks to the parent and removes the final
name, erroring where the walk fails. -/
def removeSegs : Fs → List String → Except Err Fs
  | _, [] => .error "cannot remove root"
  | .file _ _, _ :: _ => .error "not a directory"
  | .dir i es, [last] =>
    match findEntry es last with
    | some _ => .ok (.dir i (es.filter (fun p => p.1 ≠ last)))
    | none => .error "file does not exist"
  | .dir i es, s :: r :: rest =>
    match findEntry es s with
    | none => .error "file does not exist"
    | some child =>
      match removeSegs child (r :: rest) with
      | .error e => .error e
      | .ok child' => .ok (.dir i (replaceEntry es s child'))

/-- Model of `mfs.Mv(mroot, src, dst)`: look up the source node, attach it at
the destination, then remove the source entry. -/
def fsMv (t : Fs) (src dst : String) : Except Err Fs :=
  match fsLookup t src with
  | .error e => .error e
  | .ok n =>
    match fsPutNode t dst n with
    | .error e => .error e
    | .ok t' => removeSegs t' (splitPath src)

/-- Model of `Directory.Unlink(fname)` on a directory's entries: removing an
absent name is a not-found error. -/
def unlinkNames (es : List (String × Fs)) (fname : String) :
    Except Err (List (String × Fs)) :=
  match findEntry es fname with
  | some _ => .ok (es.filter (fun p => p.1 ≠ fname))
  | none => .error "file does not exist"

/-- Write the subtree `n` back at the given path of `t` (the functional
rendering of go-mfs mutating, through a pointer, the directory that
`mfs.Lookup` returned).  The path is assumed to lead through directories,
as it does whenever it was produced by a successful lookup. -/
def setSubtree : Fs → List String → Fs → Fs
  | _, [], n => n
  | .file i sz, _ :: _, _ => .file i sz
  | .dir i es, s :: rest, n =>
    .dir i (es.map (fun p => if p.1 = s then (p.1, setSubtree p.2 rest n) else p))

/-- Listing of a directory's entries (the `dnode.List` → `NodeObj` loop in
`MfsAPI.List`; `Isdir` is `n.Type == int(mfs.TDir)` there). -/
def listEntries (es : List (String × Fs)) : List NodeObj :=
  es.map (fun p => { Id := p.2.nodeId, Name := p.1, Size := p.2.listSize,
                     Isdir := p.2.isDir })

/-- Per-client state (struct `MfsAPI` in the source).  Go's `*string` fields
`CID` and `PinID` become `Option String` (a present pointer is `some`, and
`*ptr = v` is an update of the `some` payload); the `*mfs.Root` is the
`Option Fs` tree it roots; the `sync.RWMutex` and the pin-service client
handle carry no state relevant to a sequential embedding. -/
structure MfsAPI where
  CID : Option String
  PinID : Option String
  mroot : Option Fs

/-- Pin statuses of the external pinning service. -/
inductive PinStatusKind where
  | pinned
  | pinning
  | queued
  | failed
deriving Repr, DecidableEq

/-- What `pinclient.GetStatusByID` yields on success: the status, the pin's
target content identifier (`GetPin().GetCid()`), and the advertised delegate
addresses (only used for fire-and-forget peer connects). -/
structure PinStatus where
  status : PinStatusKind
  cid : String
  delegates : List String

/-- An IPLD node as `nodeApi.ResolveNode` returns it: either a
`*merkledag.ProtoNode` carrying the directory graph that `mfs.NewRoot`
roots (modelled by the tree it materializes as), or a node of some other
dynamic type, whose type name becomes the type-mismatch error text. -/
inductive LdNode where
  | proto (t : Fs)
  | other (typeName : String)

/-- Outcomes of the external calls made by `MfsAPI.newRoot`: the pin-service
status query (a function of the queried pin id), content resolution (a
function of the requested content identifier), `mfs.NewRoot`, and the
`GetDirectory().GetNode()` step that yields the new root's resulting
content identifier. -/
structure RootEnv where
  getStatus : String → Except Err PinStatus
  resolveNode : String → Except Err LdNode
  newRootErr : Option Err
  getNodeCid : Except Err String

/-- The tail of `MfsAPI.newRoot` from content resolution onwards: resolve
the chosen identifier (bounded by the one-minute timeout, whose expiry is
one of the possible `resolveNode` errors), require a `*merkledag.ProtoNode`,
build the new root, fetch its resulting identifier, and only then install
the root and (when the `CID` pointer is present) write the new identifier
through it.  Any error leaves the client unchanged.  The peer connects
launched before this point are fire-and-forget and have no effect here. -/
def buildFrom (mapi : MfsAPI) (env : RootEnv) (rootcid : String) :
    MfsAPI × Option Err :=
  match env.resolveNode rootcid with
  | .error e => (mapi, some e)
  | .ok (.other tn) => (mapi, some tn)
  | .ok (.proto t) =>
    match env.newRootErr with
    | some e => (mapi, some e)
    | none =>
      match env.getNodeCid with
      | .error e => (mapi, some e)
      | .ok ncid =>
        ({ mapi with mroot := some t, CID := mapi.CID.map (fun _ => ncid) },
         none)

/-- The pin-resolution body of `MfsAPI.newRoot` (everything after the
cached-root fast path): read the pin id and identifier override, query the
pin service — NOTE: the source declares a fresh `err` in the `if` header
(`if pinstatus, err := mapi.pinclient.GetStatusByID(...); err == nil`),
shadowing the named return, so a status-query failure is dropped and the
walk continues with the previously known identifier — override the
identifier when the status is "pinned", then resolve and build. -/
def pinResolve (mapi : MfsAPI) (env : RootEnv) : MfsAPI × Option Err :=
  let pinid := mapi.PinID.getD ""
  let rootcid := mapi.CID.getD ""
  let rootcid :=
    match env.getStatus pinid with
    | .error _ => rootcid
    | .ok ps => if ps.status = .pinned then ps.cid else rootcid
  buildFrom mapi env rootcid

/-- `MfsAPI.newRoot(force)`: reuse the cached root unless absent or a
rebuild is forced (the source checks this twice, unlocked then locked;
sequentially the second check is the same test), otherwise run pin
resolution. -/
def newRoot (mapi : MfsAPI) (env : RootEnv) (force : Bool) :
    MfsAPI × Option Err :=
  if force = false ∧ mapi.mroot.isSome then (mapi, none)
  else pinResolve mapi env

/-- Outcomes of the external calls made by the mutating tree operations:
the root flush in `waitpin`, and for `Put` the direct resolution of the
given content identifier, the `Unixfs().Add` stream ingestion (yielding a
resolved path) and the resolution of that path. -/
structure OpEnv where
  flush : Option Err
  resolveNode : String → Except Err Fs
  unixfsAdd : Except Err String
  resolvePath : String → Except Err Fs

/-- `MfsAPI.waitpin`: flush the root; when the flush succeeds, report the
unimplemented remote-pin-confirmation wait as the error "NotImplement";
when it fails, return the flush's own error. -/
def waitpin (oenv : OpEnv) : Option Err :=
  match oenv.flush with
  | some e => some e
  | none => some "NotImplement"

/-- Result of running one Go method: either a normal return or a runtime
crash (nil-pointer dereference). -/
inductive GoOutcome (α : Type) where
  | norm (val : α)
  | crashed (msg : String)

/-- The text of Go's nil-dereference runtime error. -/
def nilDeref : String :=
  "runtime error: invalid memory address or nil pointer dereference"

/-- `MfsAPI.List`: ensure a root, look up the path, require a directory
(a non-directory is reported by its dynamic type name), and list it.
A `none` root after a successful `newRoot` would be a nil dereference;
it is provably unreachable. -/
def ListOp (mapi : MfsAPI) (renv : RootEnv) (pth : String) :
    GoOutcome (MfsAPI × Except Err (List NodeObj)) :=
  match newRoot mapi renv false with
  | (m, some e) => .norm (m, .error e)
  | (m, none) =>
    match m.mroot with
    | none => .crashed nilDeref
    | some t =>
      match fsLookup t pth with
      | .error e => .norm (m, .error e)
      | .ok (.dir _ es) => .norm (m, .ok (listEntries es))
      | .ok n => .norm (m, .error n.typeName)

/-- `MfsAPI.Mkdir`: ensure a root, create the directory in the tree, then
run the flush/pin-confirmation step. -/
def MkdirOp (mapi : MfsAPI) (renv : RootEnv) (oenv : OpEnv) (pth : String) :
    GoOutcome (MfsAPI × Option Err) :=
  match newRoot mapi renv false with
  | (m, some e) => .norm (m, some e)
  | (m, none) =>
    match m.mroot with
    | none => .crashed nilDeref
    | some t =>
      match fsMkdir t pth with
      | .error e => .norm (m, some e)
      | .ok t' => .norm ({ m with mroot := some t' }, waitpin oenv)

/-- `MfsAPI.Mv`: ensure a root, relocate the node in the tree, then run the
flush/pin-confirmation step. -/
def MvOp (mapi : MfsAPI) (renv : RootEnv) (oenv : OpEnv) (src dst : String) :
    GoOutcome (MfsAPI × Option Err) :=
  match newRoot mapi renv false with
  | (m, some e) => .norm (m, some e)
  | (m, none) =>
    match m.mroot with
    | none => .crashed nilDeref
    | some t =>
      match fsMv t src dst with
      | .error e => .norm (m, some e)
      | .ok t' => .norm ({ m with mroot := some t' }, waitpin oenv)

/-- The node-resolution chain of `MfsAPI.Put`: resolve the given content
identifier; on failure, ingest the byte stream and resolve the resulting
path instead. -/
def putResolve (oenv : OpEnv) (nodecid : String) : Except Err Fs :=
  match oenv.resolveNode nodecid with
  | .ok n => .ok n
  | .error _ =>
    match oenv.unixfsAdd with
    | .error e => .error e
    | .ok p => oenv.resolvePath p

/-- `MfsAPI.Put`: ensure a root, resolve the node to attach (identifier
first, stream fallback), attach it at the path, then run the
flush/pin-confirmation step. -/
def PutOp (mapi : MfsAPI) (renv : RootEnv) (oenv : OpEnv)
    (pth nodecid : String) : GoOutcome (MfsAPI × Option Err) :=
  match newRoot mapi renv false with
  | (m, some e) => .norm (m, some e)
  | (m, none) =>
    match m.mroot with
    | none => .crashed nilDeref
    | some t =>
      match putResolve oenv nodecid with
      | .error e => .norm (m, some e)
      | .ok n =>
        match fsPutNode t pth n with
        | .error e => .norm (m, some e)
        | .ok t' => .norm ({ m with mroot := some t' }, waitpin oenv)

/-- `MfsAPI.Unlink`: ensure a root, look up the path and compute the
directory type check — but then, unlike `List`, the source calls
`dnode.Unlink(fname)` UNCONDITIONALLY (`if err = dnode.Unlink(fname); err
== nil`), overwriting any lookup or type-mismatch error; when the lookup
failed or the node is not a directory, `dnode` is a nil `*mfs.Directory`
and the call crashes with a nil dereference. -/
def UnlinkOp (mapi : MfsAPI) (renv : RootEnv) (oenv : OpEnv)
    (pth fname : String) : GoOutcome (MfsAPI × Option Err) :=
  match newRoot mapi renv false with
  | (m, some e) => .norm (m, some e)
  | (m, none) =>
    match m.mroot with
    | none => .crashed nilDeref
    | some t =>
      match fsLookup t pth with
      | .ok (.dir i es) =>
        match unlinkNames es fname with
        | .error e => .norm (m, some e)
        | .ok es' =>
          .norm ({ m with
                    mroot := some (setSubtree t (splitPath pth) (.dir i es')) },
                 waitpin oenv)
      | _ => .crashed nilDeref

/-- What the global `closeFunc` points at: the opened repository's `Close`
or, once the node is built, the node's `Close`. -/
inductive CloseTarget where
  | repo
  | node
deriving Repr, DecidableEq

/-- The package-level globals of `util.go`: `buildCount` (the -1 sentinel
means no node), whether `nodeApi` is set, `repopath`, what `closeFunc`
points at (`none` is the nil function), the once-per-process `plugins`
flag, and the configurable `DefaultPath`.  The two mutexes serialize the
steps this sequential embedding already serializes. -/
structure GState where
  buildCount : Int
  nodeApi : Bool
  repopath : String
  closeFunc : Option CloseTarget
  plugins : Bool
  defaultPath : String
deriving Repr, DecidableEq

/-- The globals at process start (`buildCount = -1`, nothing set). -/
def initG : GState :=
  { buildCount := -1, nodeApi := false, repopath := "", closeFunc := none,
    plugins := false, defaultPath := "" }

/-- The uninitialized global state the lifecycle claims speak about: the
count sentinel, no node API, empty repository path, nil close callback. -/
def UninitG (g : GState) : Prop :=
  g.buildCount = -1 ∧ g.nodeApi = false ∧ g.repopath = "" ∧ g.closeFunc = none

instance (g : GState) : Decidable (UninitG g) := by
  unfold UninitG; infer_instance

/-- Go's `path.Join` for the two-argument use in the source, on already
clean inputs: an empty first component yields the second. -/
def goPathJoin (a b : String) : String :=
  if a = "" then b else a ++ "/" ++ b

/-- Outcomes of the external construction steps of `NewMfs`, in call order:
plugin loader creation / Initialize / Inject, `config.Init` (yielding the
generated peer id on success), `fsrepo.Init`, `fsrepo.Open`,
`core.NewNode`, `coreapi.NewCoreAPI`.  `none` (or `.ok`) is success. -/
structure NewMfsEnv where
  pluginNew : Option Err
  pluginInit : Option Err
  pluginInject : Option Err
  configInit : Except Err String
  fsrepoInit : Option Err
  fsrepoOpen : Option Err
  coreNewNode : Option Err
  coreApiNew : Option Err

/-- A construction environment in which every step succeeds, generating
peer id `pid`. -/
def allOkEnv (pid : String) : NewMfsEnv :=
  { pluginNew := none, pluginInit := none, pluginInject := none,
    configInit := .ok pid, fsrepoInit := none, fsrepoOpen := none,
    coreNewNode := none, coreApiNew := none }

/-- Result of one `NewMfs` call: the globals afterwards, the returned
handle or `none`, the returned error, the directories passed to
`os.RemoveAll`, the targets whose `Close` ran during cleanup, and whether
the construction branch ran to completion (`buildCount` set to 1). -/
structure NewMfsResult where
  g : GState
  mapi : Option MfsAPI
  err : Option Err
  removedDirs : List String
  closedTargets : List CloseTarget
  constructed : Bool

/-- The plugin-loading stage of `NewMfs` (skipped once `plugins` is set):
the first failing of NewPluginLoader / Initialize / Inject aborts the
stage with its error; only full success sets the flag. -/
def pluginStageErr (alreadyLoaded : Bool) (env : NewMfsEnv) : Option Err :=
  if alreadyLoaded then none
  else
    match env.pluginNew with
    | some e => some e
    | none =>
      match env.pluginInit with
      | some e => some e
      | none =>
        match env.pluginInject with
        | some e => some e
        | none => none

/-- `NewMfs(purl, ptoken)` under `buildLock`.  If a node exists
(`buildCount >= 0`) just increment the count and hand out a fresh handle.
Otherwise run full construction; each failure branch returns that step's
error after running exactly the deferred cleanups registered by then
(remove and clear `repopath` once it was derived; call and clear
`closeFunc` once the repository was opened), leaving `buildCount = -1`
and `nodeApi` unset. -/
def NewMfs (g0 : GState) (env : NewMfsEnv) : NewMfsResult :=
  if 0 ≤ g0.buildCount then
    { g := { g0 with buildCount := g0.buildCount + 1 },
      mapi := some { CID := none, PinID := none, mroot := none },
      err := none, removedDirs := [], closedTargets := [],
      constructed := false }
  else
    let g : GState := { g0 with buildCount := -1, nodeApi := false }
    let pErr := pluginStageErr g.plugins env
    let g : GState := if pErr = none then { g with plugins := true } else g
    match pErr with
    | some e =>
      { g := g, mapi := none, err := some e, removedDirs := [],
        closedTargets := [], constructed := false }
    | none =>
      match env.configInit with
      | .error e =>
        { g := g, mapi := none, err := some e, removedDirs := [],
          closedTargets := [], constructed := false }
      | .ok pid =>
        let rp := goPathJoin g.defaultPath ("ipfs_" ++ pid)
        let g : GState := { g with repopath := rp }
        match env.fsrepoInit with
        | some e =>
          { g := { g with repopath := "" }, mapi := none, err := some e,
            removedDirs := [rp], closedTargets := [], constructed := false }
        | none =>
          match env.fsrepoOpen with
          | some e =>
            { g := { g with repopath := "" }, mapi := none, err := some e,
              removedDirs := [rp], closedTargets := [], constructed := false }
          | none =>
            let g : GState := { g with closeFunc := some CloseTarget.repo }
            match env.coreNewNode with
            | some e =>
              { g := { g with closeFunc := none, repopath := "" },
                mapi := none, err := some e, removedDirs := [rp],
                closedTargets := [CloseTarget.repo], constructed := false }
            | none =>
              let g : GState := { g with closeFunc := some CloseTarget.node }
              match env.coreApiNew with
              | some e =>
                { g := { g with closeFunc := none, repopath := "" },
                  mapi := none, err := some e, removedDirs := [rp],
                  closedTargets := [CloseTarget.node], constructed := false }
              | none =>
                { g := { g with nodeApi := true, buildCount := 1 },
                  mapi := some { CID := none, PinID := none, mroot := none },
                  err := none, removedDirs := [], closedTargets := [],
                  constructed := true }

/-- Result of one `MfsAPI.Close` call: the client and globals afterwards,
the directories passed to `os.RemoveAll`, the close targets invoked,
the value `buildCount--` stored before any sentinel reset, whether the
teardown branch (`buildCount <= 0`) ran, and whether the call crashed
(invoking a nil `closeFunc`). -/
structure CloseResult where
  mapi : MfsAPI
  g : GState
  removedDirs : List String
  closedTargets : List CloseTarget
  countAfterDecrement : Int
  toreDown : Bool
  panicked : Bool

/-- `MfsAPI.Close`: under the client's lock, flush-free and drop the
client's root (the flush result is ignored), then — in the deferred block
under `buildLock` — decrement `buildCount`; when the decremented value is
`<= 0`, reset the sentinel, clear `nodeApi`, remove and clear `repopath`
(the removal is itself deferred, so it runs even during a panic unwind),
and invoke `closeFunc`: if that function is nil the call crashes. -/
def Close (mapi : MfsAPI) (g : GState) : CloseResult :=
  let m : MfsAPI := { mapi with mroot := none }
  let n := g.buildCount - 1
  if n ≤ 0 then
    let removed := [g.repopath]
    let g' : GState := { g with buildCount := -1, nodeApi := false,
                                repopath := "" }
    match g.closeFunc with
    | none =>
      { mapi := m, g := g', removedDirs := removed, closedTargets := [],
        countAfterDecrement := n, toreDown := true, panicked := true }
    | some t =>
      { mapi := m, g := { g' with closeFunc := none },
        removedDirs := removed, closedTargets := [t],
        countAfterDecrement := n, toreDown := true, panicked := false }
  else
    { mapi := m, g := { g with buildCount := n }, removedDirs := [],
      closedTargets := [], countAfterDecrement := n, toreDown := false,
      panicked := false }

/-- One acquire (`NewMfs` with every construction step succeeding, the
generated peer id attached) or one release (`Close`) in a lifecycle
history. -/
inductive Ev where
  | acquire (pid : String)
  | release

/-- Aggregate of running a lifecycle history: the final globals, how many
constructions completed, how many teardown branches ran, and how many
calls crashed. -/
structure RunStats where
  g : GState
  builds : Nat
  teardowns : Nat
  crashes : Nat

/-- Run a history of acquire/release events against the globals, counting
completed constructions, teardowns and crashes.  Releases use a fresh
client value: the client's own root only affects the client, not the
globals. -/
def runEvents (g : GState) : List Ev → RunStats
  | [] => { g := g, builds := 0, teardowns := 0, crashes := 0 }
  | .acquire pid :: rest =>
    let r := NewMfs g (allOkEnv pid)
    let s := runEvents r.g rest
    { s with builds := (if r.constructed then 1 else 0) + s.builds }
  | .release :: rest =>
    let r := Close { CID := none, PinID := none, mroot := none } g
    let s := runEvents r.g rest
    { s with
      teardowns := (if r.toreDown then 1 else 0) + s.teardowns,
      crashes := (if r.panicked then 1 else 0) + s.crashes }

/-- Specification-side count of live handles after a history, starting
from `l` live. -/
def liveAfter : Nat → List Ev → Nat
  | l, [] => l
  | l, .acquire _ :: rest => liveAfter (l + 1) rest
  | l, .release :: rest => liveAfter (l - 1) rest

/-- Specification-side count of 0-to-1 transitions (starts of busy
periods) in a history. -/
def rises : Nat → List Ev → Nat
  | _, [] => 0
  | l, .acquire _ :: rest => (if l = 0 then 1 else 0) + rises (l + 1) rest
  | l, .release :: rest => rises (l - 1) rest

/-- Specification-side count of 1-to-0 transitions (ends of busy periods)
in a history. -/
def falls : Nat → List Ev → Nat
  | _, [] => 0
  | l, .acquire _ :: rest => falls (l + 1) rest
  | l, .release :: rest => (if l = 1 then 1 else 0) + falls (l - 1) rest

/-- A history is well formed when no prefix releases more than it
acquired. -/
def wfEv : Nat → List Ev → Bool
  | _, [] => true
  | l, .acquire _ :: rest => wfEv (l + 1) rest
  | l, .release :: rest => decide (0 < l) && wfEv (l - 1) rest

/-- The lifecycle invariant tying the globals to the number of live
handles: with none live the globals are uninitialized; with `l > 0` live
the count equals `l` and a teardown callback is installed. -/
def GInv (g : GState) (l : Nat) : Prop :=
  if l = 0 then UninitG g
  else g.buildCount = (l : Int) ∧ g.closeFunc.isSome = true

instance (g : GState) (l : Nat) : Decidable (GInv g l) := by
  unfold GInv; infer_instance

/-! Helper lemmas. -/

/-- On any error outcome, `buildFrom` returns the client unchanged. -/
theorem buildFrom_error_unchanged (m : MfsAPI) (env : RootEnv) (cid : String)
    (e : Err) (h : (buildFrom m env cid).2 = some e) :
    (buildFrom m env cid).1 = m := by
  unfold buildFrom at h ⊢
  rcases hres : env.resolveNode cid with e' | ln
  · simp [hres]
  · rcases ln with t | tn
    · rcases hnr : env.newRootErr with _ | e'
      · rcases hcid : env.getNodeCid with e' | ncid
        · simp [hres, hnr, hcid]
        · simp [hres, hnr, hcid] at h
      · simp [hres, hnr]
    · simp [hres]

/-- `buildFrom` changes the client's `CID` field only on full success, and
then to the identifier that `GetDirectory().GetNode()` reported. -/
theorem buildFrom_cid_change (m : MfsAPI) (env : RootEnv) (cid : String)
    (h : (buildFrom m env cid).1.CID ≠ m.CID) :
    (buildFrom m env cid).2 = none ∧
      ∃ ncid, env.getNodeCid = .ok ncid ∧
        (buildFrom m env cid).1.CID = some ncid := by
  unfold buildFrom at h ⊢
  rcases hres : env.resolveNode cid with e' | ln
  · simp [hres] at h
  · rcases ln with t | tn
    · rcases hnr : env.newRootErr with _ | e'
      · rcases hcid : env.getNodeCid with e' | ncid
        · simp [hres, hnr, hcid] at h
        · rcases hc : m.CID with _ | old
          · simp [hres, hnr, hcid, hc] at h
          · exact ⟨by simp [hres, hnr, hcid], ncid, rfl,
              by simp [hres, hnr, hcid, hc]⟩
      · simp [hres, hnr] at h
    · simp [hres] at h

/-! Claim theorems. -/

/-- C2: for each mutating operation (Mkdir, Mv, Put, Unlink), a successful
in-memory tree mutation is followed by the root flush of `waitpin`; the
operation's error is exactly `waitpin`'s result, which is the error
"NotImplement" when the flush succeeds and the flush's own error when the
flush fails, so the confirmation-gap error is distinguishable from a
genuine flush failure. -/
theorem mutating_ops_flush_confirmation_gap (m : MfsAPI) (renv : RootEnv)
    (oenv : OpEnv) (t : Fs) (hroot : m.mroot = some t) :
    (∀ pth t', fsMkdir t pth = .ok t' →
      MkdirOp m renv oenv pth =
        .norm ({ m with mroot := some t' }, waitpin oenv)) ∧
    (∀ src dst t', fsMv t src dst = .ok t' →
      MvOp m renv oenv src dst =
        .norm ({ m with mroot := some t' }, waitpin oenv)) ∧
    (∀ pth nodecid n t', putResolve oenv nodecid = .ok n →
      fsPutNode t pth n = .ok t' →
      PutOp m renv oenv pth nodecid =
        .norm ({ m with mroot := some t' }, waitpin oenv)) ∧
    (∀ pth fname i es es', fsLookup t pth = .ok (.dir i es) →
      unlinkNames es fname = .ok es' →
      UnlinkOp m renv oenv pth fname =
        .norm ({ m with
                  mroot := some (setSubtree t (splitPath pth) (.dir i es')) },
               waitpin oenv)) ∧
    (oenv.flush = none → waitpin oenv = some "NotImplement") ∧
    (∀ e, oenv.flush = some e → waitpin oenv = some e) := by
  refine ⟨?_, ?_, ?_, ?_, ?_, ?_⟩
  · intro pth t' hmk
    simp [MkdirOp, newRoot, hroot, hmk]
  · intro src dst t' hmv
    simp [MvOp, newRoot, hroot, hmv]
  · intro pth nodecid n t' hres hput
    simp [PutOp, newRoot, hroot, hres, hput]
  · intro pth fname i es es' hlk hul
    simp [UnlinkOp, newRoot, hroot, hlk, hul]
  · intro hf; simp [waitpin, hf]
  · intro e hf; simp [waitpin, hf]

/-- Witness for C2 at a concrete input: creating "/a" in an empty root with
a succeeding flush returns "NotImplement", and with a failing flush returns
that flush error. -/
theorem mutating_ops_flush_confirmation_gap_witness :
    ({ CID := none, PinID := none, mroot := some (Fs.dir "r" []) } :
        MfsAPI).mroot = some (Fs.dir "r" []) ∧
    fsMkdir (Fs.dir "r" []) "/a" = .ok (Fs.dir "r" [("a", Fs.dir "" [])]) ∧
    MkdirOp { CID := none, PinID := none, mroot := some (Fs.dir "r" []) }
        { getStatus := fun _ => .error "unused",
          resolveNode := fun _ => .error "unused",
          newRootErr := none, getNodeCid := .error "unused" }
        { flush := none, resolveNode := fun _ => .error "unused",
          unixfsAdd := .error "unused", resolvePath := fun _ => .error "unused" }
        "/a" =
      .norm ({ CID := none, PinID := none,
               mroot := some (Fs.dir "r" [("a", Fs.dir "" [])]) },
             some "NotImplement") := by
  refine ⟨rfl, by with_unfolding_all rfl, ?_⟩
  have h := (mutating_ops_flush_confirmation_gap
    { CID := none, PinID := none, mroot := some (Fs.dir "r" []) }
    { getStatus := fun _ => .error "unused",
      resolveNode := fun _ => .error "unused",
      newRootErr := none, getNodeCid := .error "unused" }
    { flush := none, resolveNode := fun _ => .error "unused",
      unixfsAdd := .error "unused", resolvePath := fun _ => .error "unused" }
    (Fs.dir "r" []) rfl).1 "/a" (Fs.dir "r" [("a", Fs.dir "" [])])
    (by with_unfolding_all rfl)
  exact h

/-- C4: any failure of `newRoot` after the pin-status step — resolution,
type check, root construction or identifier fetch — returns that error and
leaves the client (installed root and identifier override) unchanged; the
override changes only on a fully successful rebuild, and then to the new
root's resulting identifier. -/
theorem newRoot_failure_leaves_client_unchanged (m : MfsAPI) (renv : RootEnv)
    (force : Bool) :
    (∀ e, (newRoot m renv force).2 = some e → (newRoot m renv force).1 = m) ∧
    ((newRoot m renv force).1.CID ≠ m.CID →
      (newRoot m renv force).2 = none ∧
        ∃ ncid, renv.getNodeCid = .ok ncid ∧
          (newRoot m renv force).1.CID = some ncid) := by
  unfold newRoot
  split
  · exact ⟨fun e h => by simp at h, fun h => absurd rfl h⟩
  · unfold pinResolve
    exact ⟨fun e h => buildFrom_error_unchanged m renv _ e h,
           fun h => buildFrom_cid_change m renv _ h⟩

/-- Witness for C4 at a concrete input: a resolution failure returns the
client unchanged. -/
theorem newRoot_failure_leaves_client_unchanged_witness :
    (newRoot { CID := some "oldcid", PinID := none, mroot := none }
        { getStatus := fun _ => .error "down",
          resolveNode := fun _ => .error "resolve timeout",
          newRootErr := none, getNodeCid := .ok "n" } true).1 =
      { CID := some "oldcid", PinID := none, mroot := none } := by
  exact (newRoot_failure_leaves_client_unchanged
    { CID := some "oldcid", PinID := none, mroot := none }
    { getStatus := fun _ => .error "down",
      resolveNode := fun _ => .error "resolve timeout",
      newRootErr := none, getNodeCid := .ok "n" } true).1
    "resolve timeout" rfl

/-- C5: when the pin-status query succeeds and reports "pinned" with target
identifier T, `newRoot` builds from T, overriding any previously supplied
identifier; for any other status it builds from the previously known
identifier. -/
theorem newRoot_pinned_overrides_cid (m : MfsAPI) (renv : RootEnv)
    (force : Bool) (ps : PinStatus)
    (hfp : force = true ∨ m.mroot = none)
    (hps : renv.getStatus (m.PinID.getD "") = .ok ps) :
    (ps.status = .pinned → newRoot m renv force = buildFrom m renv ps.cid) ∧
    (ps.status ≠ .pinned →
      newRoot m renv force = buildFrom m renv (m.CID.getD "")) := by
  have hcond : ¬(force = false ∧ m.mroot.isSome = true) := by
    rcases hfp with h | h
    · rintro ⟨h1, _⟩; rw [h] at h1; cases h1
    · rintro ⟨_, h2⟩; rw [h] at h2; cases h2
  constructor
  · intro hpin
    simp [newRoot, if_neg hcond, pinResolve, hps, hpin]
  · intro hpin
    simp [newRoot, if_neg hcond, pinResolve, hps, hpin]

/-- Witness for C5 at a concrete input: status "pinned" with target "T"
resolves "T" rather than the stale override. -/
theorem newRoot_pinned_overrides_cid_witness :
    newRoot { CID := some "stale", PinID := some "p", mroot := none }
        { getStatus := fun _ =>
            .ok { status := .pinned, cid := "T", delegates := [] },
          resolveNode := fun c =>
            if c = "T" then .ok (.proto (Fs.dir "d" [])) else .error "miss",
          newRootErr := none, getNodeCid := .ok "n" } false =
      buildFrom { CID := some "stale", PinID := some "p", mroot := none }
        { getStatus := fun _ =>
            .ok { status := .pinned, cid := "T", delegates := [] },
          resolveNode := fun c =>
            if c = "T" then .ok (.proto (Fs.dir "d" [])) else .error "miss",
          newRootErr := none, getNodeCid := .ok "n" } "T" := by
  exact (newRoot_pinned_overrides_cid
    { CID := some "stale", PinID := some "p", mroot := none }
    { getStatus := fun _ =>
        .ok { status := .pinned, cid := "T", delegates := [] },
      resolveNode := fun c =>
        if c = "T" then .ok (.proto (Fs.dir "d" [])) else .error "miss",
      newRootErr := none, getNodeCid := .ok "n" } false
    { status := .pinned, cid := "T", delegates := [] }
    (Or.inr rfl) rfl).1 rfl

/-- C6: every tree operation runs pin resolution only when no root is
cached (or a rebuild is forced): with a cached root, `newRoot` returns at
once and every operation's result is independent of the resolution
environment, so a pin-service or resolution failure cannot disturb the
cached root; with no cached root, `newRoot` runs the resolution body. -/
theorem treeops_cached_root_reused (m : MfsAPI) (t : Fs)
    (h : m.mroot = some t) :
    (∀ renv, newRoot m renv false = (m, none)) ∧
    (∀ renv renv' pth, ListOp m renv pth = ListOp m renv' pth) ∧
    (∀ renv renv' oenv pth, MkdirOp m renv oenv pth = MkdirOp m renv' oenv pth) ∧
    (∀ renv renv' oenv src dst,
      MvOp m renv oenv src dst = MvOp m renv' oenv src dst) ∧
    (∀ renv renv' oenv pth ncid,
      PutOp m renv oenv pth ncid = PutOp m renv' oenv pth ncid) ∧
    (∀ renv renv' oenv pth fn,
      UnlinkOp m renv oenv pth fn = UnlinkOp m renv' oenv pth fn) ∧
    (∀ (m' : MfsAPI) renv, m'.mroot = none →
      newRoot m' renv false = pinResolve m' renv) := by
  refine ⟨?_, ?_, ?_, ?_, ?_, ?_, ?_⟩
  · intro renv; simp [newRoot, h]
  · intro renv renv' pth; simp [ListOp, newRoot, h]
  · intro renv renv' oenv pth; simp [MkdirOp, newRoot, h]
  · intro renv renv' oenv src dst; simp [MvOp, newRoot, h]
  · intro renv renv' oenv pth ncid; simp [PutOp, newRoot, h]
  · intro renv renv' oenv pth fn; simp [UnlinkOp, newRoot, h]
  · intro m' renv h'; simp [newRoot, h']

/-- Witness for C6 at a concrete input: with a cached root, a run against a
failing pin service equals a run against a healthy one. -/
theorem treeops_cached_root_reused_witness :
    ListOp { CID := none, PinID := none, mroot := some (Fs.dir "r" []) }
        { getStatus := fun _ => .error "pin service down",
          resolveNode := fun _ => .error "resolve failed",
          newRootErr := none, getNodeCid := .error "x" } "/" =
      ListOp { CID := none, PinID := none, mroot := some (Fs.dir "r" []) }
        { getStatus := fun _ =>
            .ok { status := .pinned, cid := "T", delegates := [] },
          resolveNode := fun _ => .ok (.proto (Fs.dir "d" [])),
          newRootErr := none, getNodeCid := .ok "n" } "/" := by
  exact (treeops_cached_root_reused
    { CID := none, PinID := none, mroot := some (Fs.dir "r" []) }
    (Fs.dir "r" []) rfl).2.1
    { getStatus := fun _ => .error "pin service down",
      resolveNode := fun _ => .error "resolve failed",
      newRootErr := none, getNodeCid := .error "x" }
    { getStatus := fun _ =>
        .ok { status := .pinned, cid := "T", delegates := [] },
      resolveNode := fun _ => .ok (.proto (Fs.dir "d" [])),
      newRootErr := none, getNodeCid := .ok "n" } "/"

/-- Client with a stale identifier override and a pin id, no cached root:
the input of the C7 counterexample. -/
def pinDownClient : MfsAPI :=
  { CID := some "oldcid", PinID := some "pin1", mroot := none }

/-- Environment whose pin-status query fails while everything downstream
succeeds: the input of the C7 counterexample. -/
def pinDownEnv : RootEnv :=
  { getStatus := fun _ => .error "pin service down",
    resolveNode := fun _ => .ok (.proto (Fs.dir "d0" [])),
    newRootErr := none, getNodeCid := .ok "newcid" }

/-- C7 counterexample: `GetStatusByID` fails with "pin service down", yet
the triggering `List` succeeds — `newRoot` reports no error and installs a
root — because the source shadows the named return `err` in the `if`
header, so the pin-service error is swallowed, contrary to the claim that
it is returned to the caller of the triggering operation. -/
theorem pin_status_error_swallowed_counterexample :
    (newRoot pinDownClient pinDownEnv false).2 = none ∧
    ListOp pinDownClient pinDownEnv "/" =
      .norm ({ CID := some "newcid", PinID := some "pin1",
               mroot := some (Fs.dir "d0" []) }, .ok []) := by
  exact ⟨by with_unfolding_all rfl, by with_unfolding_all rfl⟩

/-- C7 amended: errors arising at or after content resolution are returned
to the caller, but an error from the pin-status query is swallowed (its
`err` is shadowed) and resolution proceeds with the previously known
content identifier, with no pin-based override. -/
theorem pin_status_error_swallowed_amended (m : MfsAPI) (renv : RootEnv)
    (force : Bool) (e : Err)
    (hfp : force = true ∨ m.mroot = none)
    (hs : renv.getStatus (m.PinID.getD "") = .error e) :
    newRoot m renv force = buildFrom m renv (m.CID.getD "") := by
  have hcond : ¬(force = false ∧ m.mroot.isSome = true) := by
    rcases hfp with h | h
    · rintro ⟨h1, _⟩; rw [h] at h1; cases h1
    · rintro ⟨_, h2⟩; rw [h] at h2; cases h2
  simp [newRoot, if_neg hcond, pinResolve, hs]

/-- Witness for the amended C7 at a concrete input: with the status query
failing, resolution runs against the stale identifier "oldcid". -/
theorem pin_status_error_swallowed_amended_witness :
    newRoot pinDownClient pinDownEnv false =
      buildFrom pinDownClient pinDownEnv "oldcid" := by
  exact pin_status_error_swallowed_amended pinDownClient pinDownEnv false
    "pin service down" (Or.inr rfl) rfl

/-- C3 counterexample: releasing with no live handle (globals at the
uninitialized sentinel) is not rejected — `buildCount--` runs
unconditionally and stores -2, i.e. the count IS decremented past zero
with no strictly-positive precondition check; the call then crashes by
invoking the nil `closeFunc`. -/
theorem close_overrelease_counterexample :
    (Close { CID := none, PinID := none, mroot := none } initG).countAfterDecrement = -2 ∧
    (Close { CID := none, PinID := none, mroot := none } initG).panicked = true := by
  exact ⟨by with_unfolding_all rfl, by with_unfolding_all rfl⟩

/-- C3 amended: `Close` decrements the count unconditionally, with no
positivity check; releasing more handles than were acquired transiently
drives the stored count to -2, after which the teardown branch resets the
sentinel to -1 and crashes by calling the cleared (nil) close callback —
fatal and not silently ignored, but through a nil-function panic rather
than an explicit contract check, and no close target is invoked. -/
theorem close_overrelease_amended (c : MfsAPI) (g : GState)
    (h : UninitG g) :
    (Close c g).countAfterDecrement = -2 ∧
    (Close c g).panicked = true ∧
    (Close c g).g.buildCount = -1 ∧
    (Close c g).closedTargets = [] := by
  obtain ⟨h1, h2, h3, h4⟩ := h
  refine ⟨?_, ?_, ?_, ?_⟩ <;> simp [Close, h1, h4]

/-- Witness for the amended C3 at the concrete initial state. -/
theorem close_overrelease_amended_witness :
    UninitG initG ∧
    (Close { CID := none, PinID := none, mroot := none } initG).panicked = true := by
  refine ⟨by decide, ?_⟩
  exact (close_overrelease_amended
    { CID := none, PinID := none, mroot := none } initG (by decide)).2.1

/-- Client of the C8 failing input: its cached root has a file child "f"
and no child "missing". -/
def unlinkBugClient : MfsAPI :=
  { CID := none, PinID := none,
    mroot := some (Fs.dir "r" [("f", Fs.file "cid-f" 1)]) }

/-- Resolution environment of the C8 failing input; never consulted, since
the client's root is cached. -/
def unlinkBugRenv : RootEnv :=
  { getStatus := fun _ => .error "unused",
    resolveNode := fun _ => .error "unused",
    newRootErr := none, getNodeCid := .error "unused" }

/-- Operation environment of the C8 failing input. -/
def unlinkBugOenv : OpEnv :=
  { flush := none, resolveNode := fun _ => .error "unused",
    unixfsAdd := .error "unused", resolvePath := fun _ => .error "unused" }

/-- C8 (code bug): `Unlink` on a missing path crashes with a nil-pointer
dereference instead of returning the lookup's path-not-found error, and
`Unlink` on a path naming a file crashes instead of returning the
type-mismatch error: the source calls `dnode.Unlink(fname)` without the
`err == nil` guard its sibling `List` uses, clobbering the error and
dereferencing the nil `*mfs.Directory`.  (The third part of the claim —
unlinking a non-existent name from an existing directory reports
not-found — does hold, as the final conjunct shows.) -/
theorem unlink_clobbers_lookup_error :
    fsLookup (Fs.dir "r" [("f", Fs.file "cid-f" 1)]) "/missing" =
      .error "file does not exist" ∧
    UnlinkOp unlinkBugClient unlinkBugRenv unlinkBugOenv "/missing" "x" =
      .crashed nilDeref ∧
    UnlinkOp unlinkBugClient unlinkBugRenv unlinkBugOenv "/f" "x" =
      .crashed nilDeref ∧
    UnlinkOp unlinkBugClient unlinkBugRenv unlinkBugOenv "/" "zz" =
      .norm (unlinkBugClient, some "file does not exist") := by
  refine ⟨by with_unfolding_all rfl, by with_unfolding_all rfl,
    by with_unfolding_all rfl, by with_unfolding_all rfl⟩

/-- C9: when first-time construction in `NewMfs` fails at any step (plugin
loading, config generation, repository init, repository open, node
construction, core-API wrapping), `NewMfs` returns an error and no handle,
the globals are left uninitialized (count sentinel, no node API, empty
repository path, nil close callback), the repository directory is removed
whenever its path had been derived, and the opened repository (or
half-built node) is closed whenever the open had succeeded. -/
theorem newMfs_failure_cleanup (g : GState) (env : NewMfsEnv)
    (hU : UninitG g) (hf : (NewMfs g env).mapi = none) :
    (NewMfs g env).err ≠ none ∧
    (NewMfs g env).constructed = false ∧
    UninitG (NewMfs g env).g ∧
    (∀ pid, pluginStageErr g.plugins env = none → env.configInit = .ok pid →
      (NewMfs g env).removedDirs =
        [goPathJoin g.defaultPath ("ipfs_" ++ pid)]) ∧
    (∀ pid, pluginStageErr g.plugins env = none → env.configInit = .ok pid →
      env.fsrepoInit = none → env.fsrepoOpen = none →
      (NewMfs g env).closedTargets =
        [if env.coreNewNode = none then CloseTarget.node
         else CloseTarget.repo]) := by
  obtain ⟨hbc, hna, hrp, hcf⟩ := hU
  rcases hp : pluginStageErr g.plugins env with _ | e
  · rcases hcI : env.configInit with e | pid
    · simp_all [NewMfs, UninitG]
    · rcases hfI : env.fsrepoInit with _ | e
      · rcases hfO : env.fsrepoOpen with _ | e
        · rcases hcN : env.coreNewNode with _ | e
          · rcases hcA : env.coreApiNew with _ | e
            · simp_all [NewMfs]
            · simp_all [NewMfs, UninitG]
          · simp_all [NewMfs, UninitG]
        · simp_all [NewMfs, UninitG]
      · simp_all [NewMfs, UninitG]
  · simp_all [NewMfs, UninitG]

/-- Witness for C9 at a concrete input: a `fsrepo.Open` failure returns an
error, removes the derived repository directory and leaves the globals
uninitialized. -/
theorem newMfs_failure_cleanup_witness :
    UninitG initG ∧
    (NewMfs initG
      { pluginNew := none, pluginInit := none, pluginInject := none,
        configInit := .ok "w", fsrepoInit := none,
        fsrepoOpen := some "open failed", coreNewNode := none,
        coreApiNew := none }).mapi = none ∧
    UninitG (NewMfs initG
      { pluginNew := none, pluginInit := none, pluginInject := none,
        configInit := .ok "w", fsrepoInit := none,
        fsrepoOpen := some "open failed", coreNewNode := none,
        coreApiNew := none }).g ∧
    (NewMfs initG
      { pluginNew := none, pluginInit := none, pluginInject := none,
        configInit := .ok "w", fsrepoInit := none,
        fsrepoOpen := some "open failed", coreNewNode := none,
        coreApiNew := none }).removedDirs =
      [goPathJoin initG.defaultPath ("ipfs_" ++ "w")] := by
  refine ⟨by decide, by with_unfolding_all rfl, ?_, ?_⟩
  · exact (newMfs_failure_cleanup initG
      { pluginNew := none, pluginInit := none, pluginInject := none,
        configInit := .ok "w", fsrepoInit := none,
        fsrepoOpen := some "open failed", coreNewNode := none,
        coreApiNew := none } (by decide) (by with_unfolding_all rfl)).2.2.1
  · exact (newMfs_failure_cleanup initG
      { pluginNew := none, pluginInit := none, pluginInject := none,
        configInit := .ok "w", fsrepoInit := none,
        fsrepoOpen := some "open failed", coreNewNode := none,
        coreApiNew := none } (by decide) (by with_unfolding_all rfl)).2.2.2.1
      "w" (by with_unfolding_all rfl) rfl

/-- With a node already built (`buildCount >= 0`), `NewMfs` only increments
the count and hands out a handle: no construction, no cleanup. -/
theorem newMfs_increment (g : GState) (env : NewMfsEnv)
    (h : 0 ≤ g.buildCount) :
    NewMfs g env =
      { g := { g with buildCount := g.buildCount + 1 },
        mapi := some { CID := none, PinID := none, mroot := none },
        err := none, removedDirs := [], closedTargets := [],
        constructed := false } := by
  simp [NewMfs, if_pos h]

/-- From the uninitialized state, `NewMfs` with every step succeeding
completes construction: count 1, node API set, node close callback
installed. -/
theorem newMfs_allOk_uninit (g : GState) (pid : String) (hU : UninitG g) :
    (NewMfs g (allOkEnv pid)).constructed = true ∧
    (NewMfs g (allOkEnv pid)).g.buildCount = 1 ∧
    (NewMfs g (allOkEnv pid)).g.closeFunc = some CloseTarget.node ∧
    (NewMfs g (allOkEnv pid)).err = none := by
  obtain ⟨hbc, hna, hrp, hcf⟩ := hU
  cases hpl : g.plugins <;>
    simp [NewMfs, allOkEnv, pluginStageErr, hbc, hpl]

/-- Releasing the last handle (`buildCount = 1`) with an installed close
callback runs the teardown branch without crashing and leaves the globals
uninitialized. -/
theorem close_teardown (c : MfsAPI) (g : GState) (t : CloseTarget)
    (h1 : g.buildCount = 1) (h2 : g.closeFunc = some t) :
    (Close c g).toreDown = true ∧
    (Close c g).panicked = false ∧
    UninitG (Close c g).g := by
  refine ⟨?_, ?_, ?_⟩ <;> simp [Close, h1, h2, UninitG]

/-- Releasing a non-last handle (`buildCount >= 2`) only decrements the
count: no teardown, no crash, everything else untouched. -/
theorem close_decrement (c : MfsAPI) (g : GState)
    (h : 2 ≤ g.buildCount) :
    (Close c g).toreDown = false ∧
    (Close c g).panicked = false ∧
    (Close c g).g = { g with buildCount := g.buildCount - 1 } := by
  have hne : ¬(g.buildCount - 1 ≤ 0) := by omega
  have hne' : ¬(g.buildCount ≤ 1) := by omega
  refine ⟨?_, ?_, ?_⟩ <;> simp [Close, hne, hne']

/-- Invariant of lifecycle runs: a well-formed history started in a state
matching its live count crashes nowhere, completes exactly one
construction per 0-to-1 transition, runs exactly one teardown per 1-to-0
transition, and ends in a state matching the final live count. -/
theorem runEvents_inv (evs : List Ev) :
    ∀ (g : GState) (l : Nat), GInv g l → wfEv l evs = true →
    (runEvents g evs).crashes = 0 ∧
    (runEvents g evs).builds = rises l evs ∧
    (runEvents g evs).teardowns = falls l evs ∧
    GInv (runEvents g evs).g (liveAfter l evs) := by
  induction evs with
  | nil =>
    intro g l hInv _
    simpa [runEvents, rises, falls, liveAfter] using hInv
  | cons ev rest ih =>
    intro g l hInv hwf
    cases ev with
    | acquire pid =>
      rcases Nat.eq_zero_or_pos l with hl | hl
      · subst hl
        have hU : UninitG g := by simpa [GInv] using hInv
        have hstep := newMfs_allOk_uninit g pid hU
        have hInv' : GInv (NewMfs g (allOkEnv pid)).g 1 := by
          simp [GInv, hstep.2.1, hstep.2.2.1]
        have hrest := ih (NewMfs g (allOkEnv pid)).g 1 hInv'
          (by simpa [wfEv] using hwf)
        refine ⟨?_, ?_, ?_, ?_⟩
        · simpa [runEvents] using hrest.1
        · simp [runEvents, rises, hstep.1, hrest.2.1]
        · simpa [runEvents, falls] using hrest.2.2.1
        · simpa [runEvents, liveAfter] using hrest.2.2.2
      · have hl0 : l ≠ 0 := by omega
        rw [GInv, if_neg hl0] at hInv
        obtain ⟨hbc, hcf⟩ := hInv
        have hpos : 0 ≤ g.buildCount := by
          rw [hbc]; exact_mod_cast Nat.zero_le l
        have hstep := newMfs_increment g (allOkEnv pid) hpos
        have hInv' :
            GInv { g with buildCount := g.buildCount + 1 } (l + 1) := by
          rw [GInv, if_neg (Nat.succ_ne_zero l)]
          refine ⟨?_, by simpa using hcf⟩
          show g.buildCount + 1 = ((l + 1 : Nat) : Int)
          rw [hbc]; push_cast; ring
        have hrest := ih { g with buildCount := g.buildCount + 1 } (l + 1)
          hInv' (by simpa [wfEv] using hwf)
        refine ⟨?_, ?_, ?_, ?_⟩
        · simp [runEvents, hstep, hrest.1]
        · simp [runEvents, rises, hstep, hl0, hrest.2.1]
        · simp [runEvents, falls, hstep, hrest.2.2.1]
        · simp [runEvents, liveAfter, hstep, hrest.2.2.2]
    | release =>
      have hwf' : 0 < l ∧ wfEv (l - 1) rest = true := by
        simpa [wfEv] using hwf
      have hl0 : l ≠ 0 := by omega
      rw [GInv, if_neg hl0] at hInv
      obtain ⟨hbc, hcf⟩ := hInv
      obtain ⟨t, ht⟩ := Option.isSome_iff_exists.mp hcf
      rcases (by omega : l = 1 ∨ 2 ≤ l) with hl1 | hl2
      · -- l = 1: last release, teardown
        subst hl1
        have hbc1 : g.buildCount = 1 := by simpa using hbc
        have hstep := close_teardown
          { CID := none, PinID := none, mroot := none } g t hbc1 ht
        have hInv' :
            GInv (Close { CID := none, PinID := none, mroot := none } g).g 0 := by
          simpa [GInv] using hstep.2.2
        have hrest := ih (Close { CID := none, PinID := none, mroot := none } g).g
          0 hInv' (by simpa using hwf'.2)
        refine ⟨?_, ?_, ?_, ?_⟩
        · simp [runEvents, hstep.2.1, hrest.1]
        · simpa [runEvents, rises] using hrest.2.1
        · simp [runEvents, falls, hstep.1, hrest.2.2.1]
        · simpa [runEvents, liveAfter] using hrest.2.2.2
      · -- l >= 2: plain decrement
        have hbc2 : 2 ≤ g.buildCount := by rw [hbc]; exact_mod_cast hl2
        have hstep := close_decrement
          { CID := none, PinID := none, mroot := none } g hbc2
        have hInv' :
            GInv { g with buildCount := g.buildCount - 1 } (l - 1) := by
          rw [GInv, if_neg (by omega : l - 1 ≠ 0)]
          refine ⟨?_, by simpa using hcf⟩
          show g.buildCount - 1 = ((l - 1 : Nat) : Int)
          rw [hbc]; omega
        have hrest := ih { g with buildCount := g.buildCount - 1 } (l - 1)
          hInv' hwf'.2
        refine ⟨?_, ?_, ?_, ?_⟩
        · simp [runEvents, hstep.2.1, hstep.2.2, hrest.1]
        · simp [runEvents, rises, hstep.2.2, hrest.2.1]
        · have hne1 : l ≠ 1 := by omega
          simp [runEvents, falls, hstep.1, hstep.2.2, hne1, hrest.2.2.1]
        · simp [runEvents, liveAfter, hstep.2.2, hrest.2.2.2]

/-- C1: for every well-formed acquire/release history (releases never
exceeding acquires) started from the uninitialized state, no call crashes,
the number of completed backing-node constructions equals the number of
0-to-1 live transitions (one per busy period, on the transition, never
skipped), the number of teardowns equals the number of 1-to-0 transitions
(none while a handle is live, exactly one when the last is released), and
when no handle remains live the globals are back to uninitialized, so the
next `NewMfs` performs full construction again. -/
theorem lifecycle_single_build_single_teardown (g : GState) (evs : List Ev)
    (hU : UninitG g) (hwf : wfEv 0 evs = true) :
    (runEvents g evs).crashes = 0 ∧
    (runEvents g evs).builds = rises 0 evs ∧
    (runEvents g evs).teardowns = falls 0 evs ∧
    (liveAfter 0 evs = 0 → UninitG (runEvents g evs).g ∧
      ∀ pid, (NewMfs (runEvents g evs).g (allOkEnv pid)).constructed = true) ∧
    (0 < liveAfter 0 evs →
      (runEvents g evs).g.buildCount = (liveAfter 0 evs : Int)) := by
  have h := runEvents_inv evs g 0 (by simpa [GInv] using hU) hwf
  refine ⟨h.1, h.2.1, h.2.2.1, ?_, ?_⟩
  · intro h0
    have hU' : UninitG (runEvents g evs).g := by
      have := h.2.2.2
      rw [h0] at this
      simpa [GInv] using this
    exact ⟨hU', fun pid => (newMfs_allOk_uninit _ pid hU').1⟩
  · intro hpos
    have hne : liveAfter 0 evs ≠ 0 := Nat.pos_iff_ne_zero.mp hpos
    have := h.2.2.2
    rw [GInv, if_neg hne] at this
    exact this.1

/-- A concrete well-formed history: two acquires, two releases, one more
acquire, one final release. -/
def evList : List Ev :=
  [.acquire "a", .acquire "b", .release, .release, .acquire "c", .release]

/-- Witness for C1 at the concrete history `evList` started at `initG`. -/
theorem lifecycle_single_build_single_teardown_witness :
    UninitG initG ∧ wfEv 0 evList = true ∧
    (runEvents initG evList).crashes = 0 ∧
    (runEvents initG evList).builds = rises 0 evList ∧
    (runEvents initG evList).teardowns = falls 0 evList := by
  refine ⟨by decide, by decide, ?_, ?_, ?_⟩
  · exact (lifecycle_single_build_single_teardown initG evList
      (by decide) (by decide)).1
  · exact (lifecycle_single_build_single_teardown initG evList
      (by decide) (by decide)).2.1
  · exact (lifecycle_single_build_single_teardown initG evList
      (by decide) (by decide)).2.2.1

/-- Replacing the found child keeps it findable: the replacement is what a
later lookup of the same name returns. -/
theorem findEntry_replace (es : List (String × Fs)) (s : String) (c c' : Fs)
    (h : findEntry es s = some c) :
    findEntry (replaceEntry es s c') s = some c' := by
  induction es with
  | nil => simp [findEntry] at h
  | cons p ps ih =>
    obtain ⟨n, c0⟩ := p
    by_cases hns : n = s
    · subst hns
      have hre : replaceEntry ((n, c0) :: ps) n c' = (n, c') :: replaceEntry ps n c' := by
        simp [replaceEntry]
      rw [hre]
      simp [findEntry]
    · simp only [findEntry, if_neg hns] at h
      have hre : replaceEntry ((n, c0) :: ps) s c' = (n, c0) :: replaceEntry ps s c' := by
        simp [replaceEntry, hns]
      rw [hre]
      simp only [findEntry, if_neg hns]
      exact ih h

/-- After a successful `mkdir` of `segs ++ [last]`, looking up `segs` in
the new tree finds the parent directory with the fresh empty directory
appended to its entries. -/
theorem mkdir_parent_lookup : ∀ (segs : List String) (t t' : Fs)
    (last : String), mkdirSegs t (segs ++ [last]) = .ok t' →
    ∃ i es, lookupSegs t' segs = .ok (.dir i (es ++ [(last, Fs.dir "" [])])) := by
  intro segs
  induction segs with
  | nil =>
    intro t t' last h
    cases t with
    | file i sz => simp [mkdirSegs] at h
    | dir i es =>
      cases hfe : findEntry es last with
      | some c => simp [mkdirSegs, hfe] at h
      | none =>
        simp [mkdirSegs, hfe] at h
        exact ⟨i, es, by rw [← h]; rfl⟩
  | cons s segs' ih =>
    intro t t' last h
    cases t with
    | file i sz => simp [mkdirSegs] at h
    | dir i es =>
      obtain ⟨r, rest, hq⟩ : ∃ r rest, segs' ++ [last] = r :: rest := by
        cases segs' with
        | nil => exact ⟨last, [], rfl⟩
        | cons a b => exact ⟨a, b ++ [last], rfl⟩
      rw [List.cons_append, hq] at h
      cases hfe : findEntry es s with
      | none => simp [mkdirSegs, hfe] at h
      | some child =>
        simp only [mkdirSegs, hfe] at h
        cases hrec : mkdirSegs child (r :: rest) with
        | error e => rw [hrec] at h; simp at h
        | ok child' =>
          rw [hrec] at h
          simp only [Except.ok.injEq] at h
          rw [← hq] at hrec
          obtain ⟨i2, es2, hlk⟩ := ih child child' last hrec
          refine ⟨i2, es2, ?_⟩
          rw [← h]
          simpa [lookupSegs, findEntry_replace es s child child' hfe] using hlk

/-- Every error `lookupSegs` reports is the not-found message. -/
theorem lookupSegs_error_msg : ∀ (segs : List String) (t : Fs) (e : Err),
    lookupSegs t segs = .error e → e = "file does not exist" := by
  intro segs
  induction segs with
  | nil => intro t e h; simp [lookupSegs] at h
  | cons s rest ih =>
    intro t e h
    cases t with
    | file i sz =>
      simp [lookupSegs] at h
      exact h.symm
    | dir i es =>
      cases hfe : findEntry es s with
      | some child =>
        simp only [lookupSegs, hfe] at h
        exact ih child e h
      | none =>
        simp [lookupSegs, hfe] at h
        exact h.symm

/-- No `mkdirSegs` error spells the confirmation-gap message. -/
theorem mkdirSegs_error_ne : ∀ (segs : List String) (t : Fs) (e : Err),
    mkdirSegs t segs = .error e → e ≠ "NotImplement" := by
  intro segs
  induction segs with
  | nil =>
    intro t e h
    cases t <;> simp [mkdirSegs] at h <;> rw [← h] <;> decide
  | cons s rest ih =>
    intro t e h
    cases t with
    | file i sz =>
      simp [mkdirSegs] at h
      rw [← h]; decide
    | dir i es =>
      cases rest with
      | nil =>
        cases hfe : findEntry es s with
        | some c =>
          simp [mkdirSegs, hfe] at h
          rw [← h]; decide
        | none => simp [mkdirSegs, hfe] at h
      | cons r rest' =>
        cases hfe : findEntry es s with
        | none =>
          simp [mkdirSegs, hfe] at h
          rw [← h]; decide
        | some child =>
          simp only [mkdirSegs, hfe] at h
          cases hrec : mkdirSegs child (r :: rest') with
          | error e' =>
            rw [hrec] at h
            simp only [Except.error.injEq] at h
            rw [← h]
            exact ih child e' hrec
          | ok child' => rw [hrec] at h; simp at h

/-- No `putSegs` error spells the confirmation-gap message. -/
theorem putSegs_error_ne : ∀ (segs : List String) (t n : Fs) (e : Err),
    putSegs t segs n = .error e → e ≠ "NotImplement" := by
  intro segs
  induction segs with
  | nil =>
    intro t n e h
    cases t <;> simp [putSegs] at h <;> rw [← h] <;> decide
  | cons s rest ih =>
    intro t n e h
    cases t with
    | file i sz =>
      simp [putSegs] at h
      rw [← h]; decide
    | dir i es =>
      cases rest with
      | nil =>
        cases hfe : findEntry es s with
        | some c => simp [putSegs, hfe] at h
        | none => simp [putSegs, hfe] at h
      | cons r rest' =>
        cases hfe : findEntry es s with
        | some child =>
          simp only [putSegs, hfe] at h
          cases hrec : putSegs child (r :: rest') n with
          | error e' =>
            rw [hrec] at h
            simp only [Except.error.injEq] at h
            rw [← h]
            exact ih child n e' hrec
          | ok child' => rw [hrec] at h; simp at h
        | none =>
          simp only [putSegs, hfe] at h
          cases hrec : putSegs (Fs.dir "" []) (r :: rest') n with
          | error e' =>
            rw [hrec] at h
            simp only [Except.error.injEq] at h
            rw [← h]
            exact ih (Fs.dir "" []) n e' hrec
          | ok sub => rw [hrec] at h; simp at h

/-- No `removeSegs` error spells the confirmation-gap message. -/
theorem removeSegs_error_ne : ∀ (segs : List String) (t : Fs) (e : Err),
    removeSegs t segs = .error e → e ≠ "NotImplement" := by
  intro segs
  induction segs with
  | nil =>
    intro t e h
    cases t <;> simp [removeSegs] at h <;> rw [← h] <;> decide
  | cons s rest ih =>
    intro t e h
    cases t with
    | file i sz =>
      simp [removeSegs] at h
      rw [← h]; decide
    | dir i es =>
      cases rest with
      | nil =>
        cases hfe : findEntry es s with
        | some c => simp [removeSegs, hfe] at h
        | none =>
          simp [removeSegs, hfe] at h
          rw [← h]; decide
      | cons r rest' =>
        cases hfe : findEntry es s with
        | none =>
          simp [removeSegs, hfe] at h
          rw [← h]; decide
        | some child =>
          simp only [removeSegs, hfe] at h
          cases hrec : removeSegs child (r :: rest') with
          | error e' =>
            rw [hrec] at h
            simp only [Except.error.injEq] at h
            rw [← h]
            exact ih child e' hrec
          | ok child' => rw [hrec] at h; simp at h

/-- No `fsMv` error spells the confirmation-gap message. -/
theorem fsMv_error_ne (t : Fs) (src dst : String) (e : Err)
    (h : fsMv t src dst = .error e) : e ≠ "NotImplement" := by
  unfold fsMv at h
  cases hlk : fsLookup t src with
  | error e' =>
    rw [hlk] at h
    simp only [Except.error.injEq] at h
    rw [← h]
    rw [lookupSegs_error_msg _ _ _ hlk]
    decide
  | ok n =>
    simp only [hlk] at h
    cases hput : fsPutNode t dst n with
    | error e' =>
      simp only [hput, Except.error.injEq] at h
      rw [← h]
      exact putSegs_error_ne _ _ _ _ hput
    | ok t2 =>
      simp only [hput] at h
      exact removeSegs_error_ne _ _ _ h

/-- Client with a cached empty root, used by the C10 witness. -/
def cachedClient : MfsAPI :=
  { CID := none, PinID := none, mroot := some (Fs.dir "r" []) }

/-- Resolution environment that is never consulted (cached root), used by
the C10 witness. -/
def quietRenv : RootEnv :=
  { getStatus := fun _ => .error "unused",
    resolveNode := fun _ => .error "unused",
    newRootErr := none, getNodeCid := .error "unused" }

/-- Operation environment with a succeeding flush, used by the C10
witness. -/
def quietOenv : OpEnv :=
  { flush := none, resolveNode := fun _ => .error "unused",
    unixfsAdd := .error "unused", resolvePath := fun _ => .error "unused" }

/-- C10: whenever a mutating operation (Mkdir, Mv, Put, Unlink) returns the
confirmation-gap error "NotImplement", its mutation has already been
applied to the in-memory tree (the stored root is the successful
mutation's result, despite the non-nil error), and a subsequent `List` of
the created directory's parent observes the new entry with
`Isdir = true`.  The hypotheses pin the flush as succeeded and rule out
the external resolution errors happening to spell the literal
"NotImplement" (in the source the confirmation-gap error is a distinct
`fmt.Errorf` value; strings model it here). -/
theorem notimplement_mutation_already_applied (m : MfsAPI) (renv : RootEnv)
    (oenv : OpEnv) (t : Fs) (hroot : m.mroot = some t)
    (hflush : oenv.flush = none)
    (hAdd : ∀ e, oenv.unixfsAdd = .error e → e ≠ "NotImplement")
    (hResP : ∀ p e, oenv.resolvePath p = .error e → e ≠ "NotImplement") :
    (∀ pth m', MkdirOp m renv oenv pth = .norm (m', some "NotImplement") →
      ∃ t', fsMkdir t pth = .ok t' ∧ m' = { m with mroot := some t' }) ∧
    (∀ src dst m', MvOp m renv oenv src dst = .norm (m', some "NotImplement") →
      ∃ t', fsMv t src dst = .ok t' ∧ m' = { m with mroot := some t' }) ∧
    (∀ pth ncid m', PutOp m renv oenv pth ncid = .norm (m', some "NotImplement") →
      ∃ n t', putResolve oenv ncid = .ok n ∧ fsPutNode t pth n = .ok t' ∧
        m' = { m with mroot := some t' }) ∧
    (∀ pth fn m', UnlinkOp m renv oenv pth fn = .norm (m', some "NotImplement") →
      ∃ i es es', fsLookup t pth = .ok (.dir i es) ∧
        unlinkNames es fn = .ok es' ∧
        m' = { m with
                mroot := some (setSubtree t (splitPath pth) (.dir i es')) }) ∧
    (∀ pth last ppth m',
      MkdirOp m renv oenv pth = .norm (m', some "NotImplement") →
      splitPath pth = splitPath ppth ++ [last] →
      ∃ es, ListOp m' renv ppth =
          .norm (m', .ok (listEntries (es ++ [(last, Fs.dir "" [])]))) ∧
        ({ Id := "", Name := last, Size := 0, Isdir := true } : NodeObj) ∈
          listEntries (es ++ [(last, Fs.dir "" [])])) := by
  have hnr : newRoot m renv false = (m, none) := by simp [newRoot, hroot]
  have hwp : waitpin oenv = some "NotImplement" := by simp [waitpin, hflush]
  have hMk : ∀ pth m',
      MkdirOp m renv oenv pth = .norm (m', some "NotImplement") →
      ∃ t', fsMkdir t pth = .ok t' ∧ m' = { m with mroot := some t' } := by
    intro pth m' hop
    unfold MkdirOp at hop
    simp only [hnr, hroot] at hop
    cases hmk : fsMkdir t pth with
    | error e =>
      simp only [hmk, GoOutcome.norm.injEq, Prod.mk.injEq,
        Option.some.injEq] at hop
      exact absurd hop.2
        (by unfold fsMkdir at hmk; exact mkdirSegs_error_ne _ _ _ hmk)
    | ok t' =>
      simp only [hmk, hwp, GoOutcome.norm.injEq, Prod.mk.injEq] at hop
      exact ⟨t', rfl, hop.1.symm⟩
  refine ⟨hMk, ?_, ?_, ?_, ?_⟩
  · intro src dst m' hop
    unfold MvOp at hop
    simp only [hnr, hroot] at hop
    cases hmv : fsMv t src dst with
    | error e =>
      simp only [hmv, GoOutcome.norm.injEq, Prod.mk.injEq,
        Option.some.injEq] at hop
      exact absurd hop.2 (fsMv_error_ne t src dst e hmv)
    | ok t' =>
      simp only [hmv, hwp, GoOutcome.norm.injEq, Prod.mk.injEq] at hop
      exact ⟨t', rfl, hop.1.symm⟩
  · intro pth ncid m' hop
    unfold PutOp at hop
    simp only [hnr, hroot] at hop
    cases hres : putResolve oenv ncid with
    | error e =>
      simp only [hres, GoOutcome.norm.injEq, Prod.mk.injEq,
        Option.some.injEq] at hop
      refine absurd hop.2 ?_
      unfold putResolve at hres
      cases hrn : oenv.resolveNode ncid with
      | ok n => simp [hrn] at hres
      | error e0 =>
        simp only [hrn] at hres
        cases hua : oenv.unixfsAdd with
        | error e1 =>
          simp only [hua, Except.error.injEq] at hres
          rw [← hres]
          exact hAdd e1 hua
        | ok p =>
          simp only [hua] at hres
          exact hResP p e hres
    | ok n =>
      simp only [hres] at hop
      cases hput : fsPutNode t pth n with
      | error e =>
        simp only [hput, GoOutcome.norm.injEq, Prod.mk.injEq,
          Option.some.injEq] at hop
        exact absurd hop.2 (putSegs_error_ne _ _ _ _ hput)
      | ok t' =>
        simp only [hput, hwp, GoOutcome.norm.injEq, Prod.mk.injEq] at hop
        exact ⟨n, t', rfl, hput, hop.1.symm⟩
  · intro pth fn m' hop
    unfold UnlinkOp at hop
    simp only [hnr, hroot] at hop
    cases hlk : fsLookup t pth with
    | error e => simp [hlk] at hop
    | ok n =>
      cases n with
      | file i sz => simp [hlk] at hop
      | dir i es =>
        simp only [hlk] at hop
        cases hul : unlinkNames es fn with
        | error e =>
          simp only [hul, GoOutcome.norm.injEq, Prod.mk.injEq,
            Option.some.injEq] at hop
          have hmsg : e = "file does not exist" := by
            unfold unlinkNames at hul
            cases hfe : findEntry es fn with
            | some c => simp [hfe] at hul
            | none =>
              simp only [hfe, Except.error.injEq] at hul
              exact hul.symm
          rw [hmsg] at hop
          exact absurd hop.2.symm (by decide)
        | ok es' =>
          simp only [hul, hwp, GoOutcome.norm.injEq, Prod.mk.injEq] at hop
          exact ⟨i, es, es', rfl, hul, hop.1.symm⟩
  · intro pth last ppth m' hop hsplit
    obtain ⟨t', hmk, hm'⟩ := hMk pth m' hop
    have hm'root : m'.mroot = some t' := by rw [hm']
    have hnr' : newRoot m' renv false = (m', none) := by
      simp [newRoot, hm'root]
    unfold fsMkdir at hmk
    rw [hsplit] at hmk
    obtain ⟨i, es, hlkp⟩ := mkdir_parent_lookup (splitPath ppth) t t' last hmk
    refine ⟨es, ?_, ?_⟩
    · unfold ListOp
      simp only [hnr', hm'root]
      unfold fsLookup
      simp [hlkp]
    · simp [listEntries, Fs.nodeId, Fs.listSize, Fs.isDir]

/-- Witness for C10 at a concrete input: Mkdir "/a" on a cached empty root
returns "NotImplement" while the entry "a" is present in the stored tree. -/
theorem notimplement_mutation_already_applied_witness :
    MkdirOp cachedClient quietRenv quietOenv "/a" =
      .norm ({ CID := none, PinID := none,
               mroot := some (Fs.dir "r" [("a", Fs.dir "" [])]) },
             some "NotImplement") ∧
    (∃ t', fsMkdir (Fs.dir "r" []) "/a" = .ok t' ∧
      ({ CID := none, PinID := none,
         mroot := some (Fs.dir "r" [("a", Fs.dir "" [])]) } : MfsAPI) =
        { cachedClient with mroot := some t' }) := by
  refine ⟨by with_unfolding_all rfl, ?_⟩
  exact (notimplement_mutation_already_applied cachedClient quietRenv
    quietOenv (Fs.dir "r" []) rfl rfl
    (fun e h => by injection h with h'; rw [← h']; decide)
    (fun p e h => by injection h with h'; rw [← h']; decide)).1 "/a" _
    (by with_unfolding_all rfl)

end AlistMfs
